import Mathlib

/-!
Verification of the wp-article-scraper repository: a shallow embedding of
the scraper (fetcher, link extractor, crawl orchestrator), the CSV export
step and the command-line driver, together with theorems settling the
specification claims about them.

Conventions of the embedding:
  - HTTP traffic is abstracted by oracles: the fetcher is driven by a
    function from attempt number to the outcome of that GET request, and
    the crawl loop by a function from target URL to the optional HTML body.
  - The Python `while True` pagination loop is given explicit fuel; all
    loop theorems are proved for every fuel value.
  - Python sets of strings are modelled as lists with membership semantics.
  - Fallible operations return Option; sleeping is recorded as a trace of
    the slept durations in seconds.
-/

namespace WpScraper

/-- An article as produced by the link extractor: a dict with keys
`title` and `url` in the source. -/
structure Article where
  title : String
  url : String
deriving DecidableEq

/-! ## Fetcher (`fetch_page` in scraper.py) -/

/-- Outcome of one `session.get` call: either a response with a status
code and body text, or a transient exception (`requests.Timeout` or
`requests.ConnectionError`). -/
inductive FetchOutcome where
  | response (status : Nat) (body : String)
  | transient
deriving DecidableEq

/-- The retry loop of `fetch_page`. `remaining` is `retries - attempt`,
the number of loop iterations the guard `attempt < retries` still allows.
A response with status 404 yields `none` at once; `raise_for_status`
raises for any status in [400, 600), and the `RequestException` handler
turns that into `none` without retrying; any other status returns the
body. On a transient exception the attempt counter is incremented and a
sleep of `2 ^ attempt` seconds (with the incremented counter, as in the
source) is recorded before retrying. Returns the result together with the
trace of sleep durations. -/
def fetchLoop (get : Nat → FetchOutcome) :
    Nat → Nat → List Nat → Option String × List Nat
  | 0, _, sleeps => (none, sleeps)
  | remaining + 1, attempt, sleeps =>
    match get attempt with
    | FetchOutcome.response status body =>
      if status = 404 then (none, sleeps)
      else if 400 ≤ status ∧ status < 600 then (none, sleeps)
      else (some body, sleeps)
    | FetchOutcome.transient =>
      fetchLoop get remaining (attempt + 1) (sleeps ++ [2 ^ (attempt + 1)])

/-- `fetch_page`: runs the retry loop starting at attempt 0 with an empty
sleep trace. The source default for `retries` is 3, which is what the
crawl loop uses. -/
def fetch_page (get : Nat → FetchOutcome) (retries : Nat) :
    Option String × List Nat :=
  fetchLoop get retries 0 []

/-! ## Link extractor (`is_valid_article_url`, `parse_articles`) -/

/-- The result of `urllib.parse.urlparse` restricted to the two fields the
scraper inspects. -/
structure ParsedUrl where
  netloc : String
  path : String
deriving DecidableEq

/-- The fixed denylist `EXCLUDED_PATH_KEYWORDS` from scraper.py. -/
def EXCLUDED_PATH_KEYWORDS : List String :=
  ["/category/", "/tag/", "/page/", "/author/",
   "/wp-content/", "/wp-json/", "/wp-includes/",
   "/feed/", "/comments/", "#"]

/-- Substring containment on character lists, modelling the Python
`keyword in path` test. -/
def charsContain (hay needle : List Char) : Bool :=
  hay.tails.any (fun t => needle.isPrefixOf t)

/-- Substring containment on strings. -/
def strContains (hay needle : String) : Bool :=
  charsContain hay.data needle.data

/-- `is_valid_article_url`: same netloc as the base domain, non-empty
non-root path, and no denylisted keyword occurring in the path. -/
def is_valid_article_url (parsed : ParsedUrl) (base_domain : String) : Bool :=
  if parsed.netloc ≠ base_domain then false
  else if parsed.path = "" ∨ parsed.path = "/" then false
  else if EXCLUDED_PATH_KEYWORDS.any (fun keyword => strContains parsed.path keyword) then false
  else true

/-- An anchor tag as seen by the extractor: its stripped visible text and
its optional `href` attribute. -/
structure Anchor where
  text : String
  href : Option String
deriving DecidableEq

/-- `parse_articles`: walks the anchors of the page, skipping any anchor
whose stripped text is empty or whose href is missing or empty (`if not
title or not href: continue`), resolves the href against the base URL
with `urljoin`, and keeps the resolved URL exactly when
`is_valid_article_url` accepts its parse against the base domain. The
`urljoin` and `urlparse` library functions are passed in as parameters. -/
def parse_articles (urljoin : String → String → String)
    (urlparse : String → ParsedUrl) (base_url : String) :
    List Anchor → List Article
  | [] => []
  | a :: rest =>
    match a.href with
    | none => parse_articles urljoin urlparse base_url rest
    | some href =>
      if a.text = "" ∨ href = "" then
        parse_articles urljoin urlparse base_url rest
      else
        let full_url := urljoin base_url href
        let parsed := urlparse full_url
        if is_valid_article_url parsed (urlparse base_url).netloc then
          { title := a.text, url := full_url } ::
            parse_articles urljoin urlparse base_url rest
        else
          parse_articles urljoin urlparse base_url rest

/-! ## Crawl orchestrator (`scrape_category`) -/

/-- Python `url.rstrip("/")`: remove every trailing slash. -/
def rstripSlash (s : String) : String :=
  String.mk ((s.data.reverse.dropWhile (fun c => c == '/')).reverse)

/-- The base-URL normalization `url.rstrip("/") + "/"`. -/
def normalize_base (url : String) : String :=
  rstripSlash url ++ "/"

/-- Target URL construction for page `p`:
`base_url if page == 1 else base_url + "page/{page}/"`. -/
def target_url (base_url : String) (page : Nat) : String :=
  if page = 1 then base_url else base_url ++ "page/" ++ toString page ++ "/"

/-- The per-page accumulation loop: for each article of the page in order,
if its URL is not yet seen, append it to the collected list and mark the
URL seen. Returns the updated (collected, seen) state. -/
def addNew : List Article → List Article → List String →
    List Article × List String
  | [], articles, seen => (articles, seen)
  | a :: rest, articles, seen =>
    if a.url ∈ seen then addNew rest articles seen
    else addNew rest (articles ++ [a]) (a.url :: seen)

/-- The `while True` pagination loop of `scrape_category`, with explicit
fuel. State: current page number, collected articles, seen URLs. Exits
returning the current state when the fetch yields nothing (`if not html`,
which is also true of an empty body), when the page has no articles, or
when every URL on the page has been seen before (pagination-loop
detection); otherwise accumulates via `addNew` and recurses on page + 1.
`fetchHtml` abstracts `fetch_page` applied to the session and timeout;
`parse` abstracts `parse_articles` applied to the page HTML and base. -/
def scrapeAux (fetchHtml : String → Option String)
    (parse : String → String → List Article) (base_url : String) :
    Nat → Nat → List Article → List String → List Article × List String
  | 0, _, articles, seen => (articles, seen)
  | fuel + 1, page, articles, seen =>
    match fetchHtml (target_url base_url page) with
    | none => (articles, seen)
    | some html =>
      if html = "" then (articles, seen)
      else
        let page_articles := parse html base_url
        if page_articles = [] then (articles, seen)
        else if ∀ a ∈ page_articles, a.url ∈ seen then (articles, seen)
        else
          let st := addNew page_articles articles seen
          scrapeAux fetchHtml parse base_url fuel (page + 1) st.1 st.2

/-- `scrape_category`: normalizes the seed URL to end in exactly one
slash and runs the pagination loop from page 1 with empty state,
returning the collected article list. -/
def scrape_category (fetchHtml : String → Option String)
    (parse : String → String → List Article) (url : String) (fuel : Nat) :
    List Article :=
  (scrapeAux fetchHtml parse (normalize_base url) fuel 1 [] []).1

/-! ## Export and CLI driver (`save_data`, `main` in cli.py) -/

/-- The encoding passed to `df.to_csv` in `save_data`. -/
def save_encoding : String := "utf-8-sig"

/-- `df.drop_duplicates(subset=["url"], keep="first")`: keep the first
row for each URL, in order. -/
def drop_duplicates : List Article → List String → List Article
  | [], _ => []
  | a :: rest, seen =>
    if a.url ∈ seen then drop_duplicates rest seen
    else a :: drop_duplicates rest (a.url :: seen)

/-- Observable effect of `save_data`: either no output file is created, or
a CSV with the given rows (columns title, url) is written in the given
encoding. -/
inductive SaveResult where
  | noOutput
  | wrote (rows : List Article) (encoding : String)
deriving DecidableEq

/-- `save_data`: an empty article list logs a warning and returns without
creating a file; otherwise the URL-deduplicated rows are written with
encoding `utf-8-sig`. -/
def save_data (articles : List Article) : SaveResult :=
  if articles = [] then SaveResult.noOutput
  else SaveResult.wrote (drop_duplicates articles []) save_encoding

/-- The per-seed loop of `main`: each seed either raised an exception
(`none`, setting `has_error` and contributing nothing) or returned a list
of articles extended onto `all_articles`. Returns (has_error,
all_articles). -/
def runSeeds (seedResults : List (Option (List Article))) :
    Bool × List Article :=
  seedResults.foldl
    (fun acc r =>
      match r with
      | none => (true, acc.2)
      | some articles => (acc.1, acc.2 ++ articles))
    (false, [])

/-- `main`: output-directory creation failure returns 1 before any
scraping; a user interrupt inside the try block returns 130 without
saving; an unexpected error raised inside the try block past the per-seed
handlers — in particular an export failure, which `save_data` logs and
re-raises — hits the outer `except Exception` and returns 1 with no
output table successfully written (that raise is only reachable when the
accumulated list is non-empty, since `save_data` returns before touching
the writer otherwise); otherwise the seeds are processed, the accumulated
list is saved, and the exit code is
`1 if has_error and not all_articles else 0`. -/
def mainRun (dirOk : Bool) (interrupted : Bool) (exportRaises : Bool)
    (seedResults : List (Option (List Article))) : Nat × SaveResult :=
  if dirOk = false then (1, SaveResult.noOutput)
  else if interrupted = true then (130, SaveResult.noOutput)
  else
    let res := runSeeds seedResults
    if exportRaises = true ∧ res.2 ≠ [] then (1, SaveResult.noOutput)
    else (if res.1 = true ∧ res.2 = [] then 1 else 0, save_data res.2)

/-! ## Theorems -/

/-- C3: when every attempt fails with a transient network error, fetching
with the fixed maximum of 3 retries makes exactly three attempts, sleeps
2, 4 and 8 seconds (2 ^ attempt with the incremented counter, no jitter),
and returns absent instead of raising. -/
theorem fetch_transient_retries (get : Nat → FetchOutcome)
    (h : ∀ n, n < 3 → get n = FetchOutcome.transient) :
    fetch_page get 3 = (none, [2, 4, 8]) := by
  have h0 := h 0 (by decide)
  have h1 := h 1 (by decide)
  have h2 := h 2 (by decide)
  simp [fetch_page, fetchLoop, h0, h1, h2]

/-- Witness for C3 at the oracle that always fails transiently. -/
theorem fetch_transient_retries_witness :
    fetch_page (fun _ => FetchOutcome.transient) 3 = (none, [2, 4, 8]) :=
  fetch_transient_retries (fun _ => FetchOutcome.transient) (fun _ _ => rfl)

/-- C4: a 404 response on the first attempt returns absent immediately
with no retry and no sleep, and so does any other response whose status is
in the 4xx/5xx range; in this model the fetcher is a total function, so no
expected failure mode escapes the boundary. -/
theorem fetch_http_error_no_retry (get : Nat → FetchOutcome)
    (s : Nat) (body : String) :
    (get 0 = FetchOutcome.response 404 body →
      fetch_page get 3 = (none, [])) ∧
    (get 0 = FetchOutcome.response s body → 400 ≤ s → s < 600 →
      fetch_page get 3 = (none, [])) := by
  constructor
  · intro h
    simp [fetch_page, fetchLoop, h]
  · intro h h4 h6
    by_cases hs : s = 404
    · simp [fetch_page, fetchLoop, h, hs]
    · simp [fetch_page, fetchLoop, h, hs, h4, h6]

/-- Witness for C4 at a 404 response and at a 500 response. -/
theorem fetch_http_error_no_retry_witness :
    fetch_page (fun _ => FetchOutcome.response 404 "gone") 3 = (none, []) ∧
    fetch_page (fun _ => FetchOutcome.response 500 "err") 3 = (none, []) :=
  ⟨(fetch_http_error_no_retry (fun _ => FetchOutcome.response 404 "gone")
      500 "gone").1 rfl,
   (fetch_http_error_no_retry (fun _ => FetchOutcome.response 500 "err")
      500 "err").2 rfl (by decide) (by decide)⟩

/-- C9: when the fetch of the very first page (the normalized base URL
itself, since page 1's target is the base) yields absent — as a 404 does —
the crawl terminates immediately with an empty article list, whatever the
fuel. -/
theorem crawl_first_fetch_absent_empty (fetchHtml : String → Option String)
    (parse : String → String → List Article) (url : String) (fuel : Nat)
    (h : fetchHtml (normalize_base url) = none) :
    scrape_category fetchHtml parse url fuel = [] := by
  cases fuel with
  | zero => rfl
  | succ n =>
    have ht : target_url (normalize_base url) 1 = normalize_base url := by
      simp [target_url]
    simp [scrape_category, scrapeAux, ht, h]

/-- Witness for C9 at an oracle with no pages at all. -/
theorem crawl_first_fetch_absent_empty_witness :
    scrape_category (fun _ => none) (fun _ _ => []) "http://example.com/cat" 5
      = [] :=
  crawl_first_fetch_absent_empty (fun _ => none) (fun _ _ => [])
    "http://example.com/cat" 5 rfl

/-- Number of trailing slash characters of a string. -/
def trailingSlashes (s : String) : Nat :=
  (s.data.reverse.takeWhile (fun c => c == '/')).length

theorem takeWhile_dropWhile_self (p : Char → Bool) (l : List Char) :
    (l.dropWhile p).takeWhile p = [] := by
  induction l with
  | nil => simp
  | cons a l ih =>
    by_cases h : p a
    · simpa [List.dropWhile, h] using ih
    · simp [List.dropWhile, List.takeWhile, h]

theorem rstripSlash_data_reverse (url : String) :
    (rstripSlash url).data.reverse =
      url.data.reverse.dropWhile (fun c => c == '/') := by
  simp [rstripSlash]

theorem string_data_append (s t : String) :
    (s ++ t).data = s.data ++ t.data := rfl

theorem normalize_base_data (url : String) :
    (normalize_base url).data = (rstripSlash url).data ++ ['/'] := by
  simp [normalize_base, string_data_append]

/-- C7: the target URL for page 1 is the normalized base itself and for
any other page it is the base followed by `page/{p}/`; normalization
yields a base with exactly one trailing slash, and is invariant under
adding extra trailing slashes to the seed URL. -/
theorem pagination_targets (url : String) (p : Nat) :
    target_url (normalize_base url) 1 = normalize_base url ∧
    (p ≠ 1 → target_url (normalize_base url) p =
      normalize_base url ++ "page/" ++ toString p ++ "/") ∧
    trailingSlashes (normalize_base url) = 1 ∧
    normalize_base (url ++ "/") = normalize_base url := by
  refine ⟨by simp [target_url], fun hp => by simp [target_url, hp], ?_, ?_⟩
  · have hrev : (normalize_base url).data.reverse =
        '/' :: (rstripSlash url).data.reverse := by
      simp [normalize_base_data]
    have hslash : (('/' : Char) == '/') = true := rfl
    simp only [trailingSlashes, hrev, List.takeWhile, hslash,
      rstripSlash_data_reverse, takeWhile_dropWhile_self]
    rfl
  · have hdata : (url ++ "/").data = url.data ++ ['/'] := by
      simp [string_data_append]
    have : rstripSlash (url ++ "/") = rstripSlash url := by
      simp [rstripSlash, hdata, List.dropWhile]
    simp [normalize_base, this]

/-- Witness for C7 at a seed URL carrying two trailing slashes and page 2. -/
theorem pagination_targets_witness :
    target_url (normalize_base "http://example.com/cat//") 1 =
      normalize_base "http://example.com/cat//" ∧
    target_url (normalize_base "http://example.com/cat//") 2 =
      normalize_base "http://example.com/cat//" ++ "page/" ++ toString 2 ++ "/" ∧
    trailingSlashes (normalize_base "http://example.com/cat//") = 1 ∧
    normalize_base ("http://example.com/cat//" ++ "/") =
      normalize_base "http://example.com/cat//" := by
  have h := pagination_targets "http://example.com/cat//" 2
  exact ⟨h.1, h.2.1 (by decide), h.2.2.1, h.2.2.2⟩

theorem addNew_seen_mono :
    ∀ (l : List Article) (arts : List Article) (seen : List String)
      (u : String), u ∈ seen → u ∈ (addNew l arts seen).2 := by
  intro l
  induction l with
  | nil => intro arts seen u hu; simpa [addNew] using hu
  | cons a rest ih =>
    intro arts seen u hu
    by_cases h : a.url ∈ seen
    · simpa [addNew, h] using ih arts seen u hu
    · simp only [addNew, if_neg h]
      exact ih (arts ++ [a]) (a.url :: seen) u (List.mem_cons_of_mem _ hu)

theorem addNew_covers :
    ∀ (l : List Article) (arts : List Article) (seen : List String)
      (a : Article), a ∈ l → a.url ∈ (addNew l arts seen).2 := by
  intro l
  induction l with
  | nil => intro arts seen a ha; cases ha
  | cons b rest ih =>
    intro arts seen a ha
    by_cases h : b.url ∈ seen
    · simp only [addNew, if_pos h]
      rcases List.mem_cons.mp ha with rfl | ha
      · exact addNew_seen_mono rest arts seen a.url h
      · exact ih arts seen a ha
    · simp only [addNew, if_neg h]
      rcases List.mem_cons.mp ha with rfl | ha
      · exact addNew_seen_mono rest (arts ++ [a]) (a.url :: seen) a.url
          (List.mem_cons_self _ _)
      · exact ih (arts ++ [b]) (b.url :: seen) a ha

/-- C1: from any crawl state whose current page — if it is fetched at
all — extracts only URLs already seen, the loop terminates at that page
returning the collected articles and seen set unchanged; and after a page
is processed by `addNew` every URL it carries is seen, so feeding the
same page twice grows nothing after the first pass. -/
theorem crawl_stops_on_seen_subset (fetchHtml : String → Option String)
    (parse : String → String → List Article) (base_url : String)
    (fuel page : Nat) (articles : List Article) (seen : List String)
    (H : ∀ html, fetchHtml (target_url base_url page) = some html →
      ∀ a ∈ parse html base_url, a.url ∈ seen) :
    scrapeAux fetchHtml parse base_url fuel page articles seen =
      (articles, seen) ∧
    ∀ (l arts : List Article) (s : List String) (a : Article), a ∈ l →
      a.url ∈ (addNew l arts s).2 := by
  refine ⟨?_, addNew_covers⟩
  cases fuel with
  | zero => rfl
  | succ n =>
    simp only [scrapeAux]
    cases hf : fetchHtml (target_url base_url page) with
    | none => rfl
    | some html =>
      by_cases hempty : html = ""
      · simp [hempty]
      · simp only [if_neg hempty]
        by_cases hnil : parse html base_url = []
        · simp [hnil]
        · simp only [if_neg hnil]
          rw [if_pos (H html hf)]

/-- Witness for C1: a crawl state whose page 1 extracts a single URL that
is already in the seen set terminates with the state unchanged, and that
URL is marked seen by `addNew` from the empty state. -/
theorem crawl_stops_on_seen_subset_witness :
    scrapeAux (fun _ => some "<html>")
      (fun _ _ => [{ title := "T", url := "http://example.com/post/" }])
      "http://example.com/" 5 1 [] ["http://example.com/post/"] =
      ([], ["http://example.com/post/"]) ∧
    "http://example.com/post/" ∈
      (addNew [{ title := "T", url := "http://example.com/post/" }] [] []).2 := by
  have h := crawl_stops_on_seen_subset (fun _ => some "<html>")
    (fun _ _ => [{ title := "T", url := "http://example.com/post/" }])
    "http://example.com/" 5 1 [] ["http://example.com/post/"]
    (by intro html _ a ha; simp at ha; subst ha; simp)
  exact ⟨h.1, h.2 [{ title := "T", url := "http://example.com/post/" }] [] []
    { title := "T", url := "http://example.com/post/" } (by simp)⟩

theorem addNew_appends :
    ∀ (l arts : List Article) (s : List String),
      ∃ tail, (addNew l arts s).1 = arts ++ tail ∧
        ∀ a ∈ tail, a ∈ l ∧ a.url ∉ s := by
  intro l
  induction l with
  | nil => intro arts s; exact ⟨[], by simp [addNew]⟩
  | cons b rest ih =>
    intro arts s
    by_cases h : b.url ∈ s
    · obtain ⟨tail, h1, h2⟩ := ih arts s
      refine ⟨tail, by simpa [addNew, h] using h1, fun a ha => ?_⟩
      obtain ⟨hmem, hns⟩ := h2 a ha
      exact ⟨List.mem_cons_of_mem _ hmem, hns⟩
    · obtain ⟨tail, h1, h2⟩ := ih (arts ++ [b]) (b.url :: s)
      refine ⟨b :: tail, ?_, fun a ha => ?_⟩
      · simp only [addNew, if_neg h, h1, List.append_assoc,
          List.singleton_append]
      · rcases List.mem_cons.mp ha with rfl | ha
        · exact ⟨List.mem_cons_self _ _, h⟩
        · obtain ⟨hmem, hns⟩ := h2 a ha
          exact ⟨List.mem_cons_of_mem _ hmem,
            fun hs => hns (List.mem_cons_of_mem _ hs)⟩

theorem addNew_inv :
    ∀ (l arts : List Article) (s : List String),
      (arts.map Article.url).Nodup → (∀ a ∈ arts, a.url ∈ s) →
      (((addNew l arts s).1.map Article.url).Nodup ∧
        ∀ a ∈ (addNew l arts s).1, a.url ∈ (addNew l arts s).2) := by
  intro l
  induction l with
  | nil => intro arts s hnd hcov; exact ⟨hnd, hcov⟩
  | cons b rest ih =>
    intro arts s hnd hcov
    by_cases h : b.url ∈ s
    · simpa [addNew, h] using ih arts s hnd hcov
    · simp only [addNew, if_neg h]
      refine ih (arts ++ [b]) (b.url :: s) ?_ ?_
      · have hnotin : b.url ∉ arts.map Article.url := by
          intro hmem
          obtain ⟨a, ha, hurl⟩ := List.mem_map.mp hmem
          exact h (hurl ▸ hcov a ha)
        simpa [List.nodup_append, hnotin] using hnd
      · intro a ha
        rcases List.mem_append.mp ha with ha | ha
        · exact List.mem_cons_of_mem _ (hcov a ha)
        · simp at ha
          subst ha
          exact List.mem_cons_self _ _

theorem scrapeAux_inv (fetchHtml : String → Option String)
    (parse : String → String → List Article) (base_url : String) :
    ∀ (fuel page : Nat) (arts : List Article) (seen : List String),
      (arts.map Article.url).Nodup → (∀ a ∈ arts, a.url ∈ seen) →
      (((scrapeAux fetchHtml parse base_url fuel page arts seen).1.map
          Article.url).Nodup ∧
        ∀ a ∈ (scrapeAux fetchHtml parse base_url fuel page arts seen).1,
          a.url ∈ (scrapeAux fetchHtml parse base_url fuel page arts seen).2) := by
  intro fuel
  induction fuel with
  | zero => intro page arts seen hnd hcov; exact ⟨hnd, hcov⟩
  | succ n ih =>
    intro page arts seen hnd hcov
    simp only [scrapeAux]
    cases hf : fetchHtml (target_url base_url page) with
    | none => exact ⟨hnd, hcov⟩
    | some html =>
      by_cases hempty : html = ""
      · simp only [if_pos hempty]; exact ⟨hnd, hcov⟩
      · simp only [if_neg hempty]
        by_cases hnil : parse html base_url = []
        · simp only [if_pos hnil]; exact ⟨hnd, hcov⟩
        · simp only [if_neg hnil]
          by_cases hsub : ∀ a ∈ parse html base_url, a.url ∈ seen
          · simp only [if_pos hsub]; exact ⟨hnd, hcov⟩
          · simp only [if_neg hsub]
            have hstep := addNew_inv (parse html base_url) arts seen hnd hcov
            exact ih (page + 1) _ _ hstep.1 hstep.2

/-- C6: for every crawl, the collected article URLs are pairwise distinct,
every collected URL is in the final seen set, and the per-page step
appends — in order — exactly articles of the page whose URL was not yet
seen. -/
theorem crawl_invariants (fetchHtml : String → Option String)
    (parse : String → String → List Article) (url : String) (fuel : Nat) :
    ((scrape_category fetchHtml parse url fuel).map Article.url).Nodup ∧
    (∀ a ∈ (scrapeAux fetchHtml parse (normalize_base url) fuel 1 [] []).1,
      a.url ∈ (scrapeAux fetchHtml parse (normalize_base url) fuel 1 [] []).2) ∧
    (∀ (l arts : List Article) (s : List String),
      ∃ tail, (addNew l arts s).1 = arts ++ tail ∧
        ∀ a ∈ tail, a ∈ l ∧ a.url ∉ s) := by
  have h := scrapeAux_inv fetchHtml parse (normalize_base url) fuel 1 [] []
    (by simp) (by simp)
  exact ⟨h.1, h.2, addNew_appends⟩

theorem is_valid_article_url_spec (parsed : ParsedUrl) (dom : String)
    (h : is_valid_article_url parsed dom = true) :
    parsed.netloc = dom ∧ parsed.path ≠ "" ∧ parsed.path ≠ "/" ∧
    ∀ k ∈ EXCLUDED_PATH_KEYWORDS, strContains parsed.path k = false := by
  unfold is_valid_article_url at h
  split_ifs at h with h1 h2 h3
  push_neg at h1 h2
  refine ⟨h1, h2.1, h2.2, fun k hk => ?_⟩
  rcases Bool.eq_false_or_eq_true (strContains parsed.path k) with ht | hf
  · exact absurd (List.any_eq_true.mpr ⟨k, hk, ht⟩) h3
  · exact hf

/-- C5: every article the extractor returns has a resolved URL whose
parse has the base URL's host, a path that is neither empty nor the root,
and a path free of every denylisted substring; and an anchor with empty
visible text, a missing href, or an empty href contributes nothing. -/
theorem extract_filters (urljoin : String → String → String)
    (urlparse : String → ParsedUrl) (base_url : String)
    (anchors : List Anchor) :
    (∀ art ∈ parse_articles urljoin urlparse base_url anchors,
      (urlparse art.url).netloc = (urlparse base_url).netloc ∧
      (urlparse art.url).path ≠ "" ∧ (urlparse art.url).path ≠ "/" ∧
      ∀ k ∈ EXCLUDED_PATH_KEYWORDS,
        strContains (urlparse art.url).path k = false) ∧
    (∀ (a : Anchor) (rest : List Anchor),
      a.text = "" ∨ a.href = none ∨ a.href = some "" →
      parse_articles urljoin urlparse base_url (a :: rest) =
        parse_articles urljoin urlparse base_url rest) := by
  constructor
  · induction anchors with
    | nil => intro art hart; cases hart
    | cons a rest ih =>
      intro art hart
      rcases ha : a.href with _ | href
      · simp only [parse_articles, ha] at hart
        exact ih art hart
      · simp only [parse_articles, ha] at hart
        by_cases hskip : a.text = "" ∨ href = ""
        · rw [if_pos hskip] at hart
          exact ih art hart
        · rw [if_neg hskip] at hart
          by_cases hvalid : is_valid_article_url
              (urlparse (urljoin base_url href)) (urlparse base_url).netloc = true
          · rw [if_pos hvalid] at hart
            rcases List.mem_cons.mp hart with rfl | hart
            · exact is_valid_article_url_spec _ _ hvalid
            · exact ih art hart
          · rw [if_neg hvalid] at hart
            exact ih art hart
  · intro a rest hskip
    rcases ha : a.href with _ | href
    · simp only [parse_articles, ha]
    · simp only [parse_articles, ha]
      rcases hskip with ht | hnone | hemp
      · exact if_pos (Or.inl ht)
      · rw [ha] at hnone; cases hnone
      · rw [ha] at hemp
        exact if_pos (Or.inr (by injection hemp))

/-- Witness for C5 at a concrete page: an anchor with empty text is
dropped, and with an identity-style parse every returned article passes
the filter. -/
theorem extract_filters_witness :
    parse_articles (fun _ h => h) (fun s => ParsedUrl.mk "example.com" s)
      "example.com"
      ({ text := "", href := some "x" } ::
        [{ text := "Post", href := some "/2024/post/" }]) =
    parse_articles (fun _ h => h) (fun s => ParsedUrl.mk "example.com" s)
      "example.com" [{ text := "Post", href := some "/2024/post/" }] :=
  (extract_filters (fun _ h => h) (fun s => ParsedUrl.mk "example.com" s)
    "example.com" []).2 { text := "", href := some "x" }
    [{ text := "Post", href := some "/2024/post/" }] (Or.inl rfl)

theorem drop_duplicates_spec :
    ∀ (l : List Article) (s : List String),
      (((drop_duplicates l s).map Article.url).Nodup ∧
        ∀ r ∈ drop_duplicates l s, r.url ∉ s) := by
  intro l
  induction l with
  | nil => intro s; simp [drop_duplicates]
  | cons a rest ih =>
    intro s
    by_cases h : a.url ∈ s
    · simpa [drop_duplicates, h] using ih s
    · obtain ⟨ihnd, ihns⟩ := ih (a.url :: s)
      simp only [drop_duplicates, if_neg h, List.map_cons, List.nodup_cons]
      refine ⟨⟨?_, ihnd⟩, ?_⟩
      · intro hmem
        obtain ⟨r, hr, hurl⟩ := List.mem_map.mp hmem
        exact ihns r hr (hurl ▸ List.mem_cons_self _ _)
      · intro r hr
        rcases List.mem_cons.mp hr with rfl | hr
        · exact h
        · exact fun hs => ihns r hr (List.mem_cons_of_mem _ hs)

theorem drop_duplicates_covers :
    ∀ (l : List Article) (s : List String) (a : Article), a ∈ l →
      a.url ∈ s ∨ a.url ∈ (drop_duplicates l s).map Article.url := by
  intro l
  induction l with
  | nil => intro s a ha; cases ha
  | cons b rest ih =>
    intro s a ha
    rcases List.mem_cons.mp ha with rfl | ha
    · by_cases h : a.url ∈ s
      · exact Or.inl h
      · exact Or.inr (by simp [drop_duplicates, if_neg h])
    · by_cases h : b.url ∈ s
      · simpa [drop_duplicates, h] using ih s a ha
      · rcases ih (b.url :: s) a ha with hs | hdd
        · rcases List.mem_cons.mp hs with heq | hs
          · exact Or.inr (by simp [drop_duplicates, if_neg h, heq])
          · exact Or.inl hs
        · refine Or.inr ?_
          rw [drop_duplicates, if_neg h]
          simp only [List.map_cons]
          exact List.mem_cons_of_mem _ hdd

theorem drop_duplicates_first :
    ∀ (l : List Article) (s : List String) (r : Article),
      r ∈ drop_duplicates l s →
      l.find? (fun a => a.url == r.url) = some r := by
  intro l
  induction l with
  | nil => intro s r hr; cases hr
  | cons a rest ih =>
    intro s r hr
    by_cases h : a.url ∈ s
    · rw [drop_duplicates, if_pos h] at hr
      have hne : r.url ≠ a.url := by
        intro heq
        exact (drop_duplicates_spec rest s).2 r hr (heq ▸ h)
      rw [List.find?_cons_of_neg _ (by simpa using fun e => hne e.symm)]
      exact ih s r hr
    · rw [drop_duplicates, if_neg h] at hr
      rcases List.mem_cons.mp hr with rfl | hr
      · rw [List.find?_cons_of_pos _ (by simp)]
      · have hne : r.url ≠ a.url := by
          intro heq
          exact (drop_duplicates_spec rest (a.url :: s)).2 r hr
            (heq ▸ List.mem_cons_self _ _)
        rw [List.find?_cons_of_neg _ (by simpa using fun e => hne e.symm)]
        exact ih (a.url :: s) r hr

/-- C8: exporting a non-empty accumulated list writes the rows (columns
title and url) deduplicated by URL in the `utf-8-sig` encoding; the rows
have pairwise distinct URLs, every accumulated URL appears among them, and
each row equals the first occurrence of its URL in the accumulated list,
so the first-encountered title is the one retained. -/
theorem export_dedup (articles : List Article) (h : articles ≠ []) :
    save_data articles =
      SaveResult.wrote (drop_duplicates articles []) save_encoding ∧
    save_encoding = "utf-8-sig" ∧
    ((drop_duplicates articles []).map Article.url).Nodup ∧
    (∀ a ∈ articles, a.url ∈ (drop_duplicates articles []).map Article.url) ∧
    (∀ r ∈ drop_duplicates articles [],
      articles.find? (fun a => a.url == r.url) = some r) := by
  refine ⟨by simp [save_data, h], rfl, (drop_duplicates_spec articles []).1,
    fun a ha => ?_, fun r hr => drop_duplicates_first articles [] r hr⟩
  rcases drop_duplicates_covers articles [] a ha with hs | hdd
  · cases hs
  · exact hdd

/-- Witness for C8 at a list repeating one URL under two titles: one row
remains and it keeps the first title. -/
theorem export_dedup_witness :
    save_data [{ title := "first", url := "u" }, { title := "second", url := "u" }] =
      SaveResult.wrote [{ title := "first", url := "u" }] "utf-8-sig" :=
  ((export_dedup [{ title := "first", url := "u" },
      { title := "second", url := "u" }] (by decide)).1).trans (by decide)

theorem runSeeds_foldl (seeds : List (Option (List Article))) :
    ∀ (b : Bool) (acc : List Article),
      seeds.foldl
        (fun acc r =>
          match r with
          | none => (true, acc.2)
          | some articles => (acc.1, acc.2 ++ articles))
        (b, acc)
      = (b || seeds.any Option.isNone, acc ++ (seeds.filterMap id).flatten) := by
  induction seeds with
  | nil => intro b acc; simp
  | cons hd tl ih =>
    intro b acc
    cases hd with
    | none => simp [List.foldl_cons, ih]
    | some arts => simp [List.foldl_cons, ih]

theorem runSeeds_eq (seeds : List (Option (List Article))) :
    runSeeds seeds = (seeds.any Option.isNone, (seeds.filterMap id).flatten) := by
  simpa [runSeeds] using runSeeds_foldl seeds false []

/-- C2 counterexample: two seeds, the first raising an unexpected error
and the second succeeding with three articles — directory creation fine,
no interrupt, export not raising — give a run that exports the three
articles yet exits with code 0, not 1 as the claim requires for a partial
failure. -/
theorem cli_exit_partial_failure_counterexample :
    (mainRun true false false
        [none, some [{ title := "a", url := "u1" },
          { title := "b", url := "u2" }, { title := "c", url := "u3" }]]).1
      = 0 ∧
    (mainRun true false false
        [none, some [{ title := "a", url := "u1" },
          { title := "b", url := "u2" }, { title := "c", url := "u3" }]]).2
      = SaveResult.wrote [{ title := "a", url := "u1" },
          { title := "b", url := "u2" }, { title := "c", url := "u3" }]
          "utf-8-sig" ∧
    (0 : Nat) ≠ 1 := by
  refine ⟨?_, ?_, by decide⟩ <;>
    simp [mainRun, runSeeds, save_data, drop_duplicates, save_encoding]

/-- C2 amended: directory-creation failure exits 1; a user interrupt
exits 130; a fatal unexpected error — here the export raising, re-raised
by `save_data` over a non-empty accumulated list — exits 1 with no output
table written; otherwise the collected articles of all successful seeds
are exported even when some seed errored, and the exit code is 1 exactly
when an error occurred and no articles at all were collected — so a
partial failure that still collected articles exports them and exits 0,
not 1. -/
theorem cli_exit_codes (dirOk interrupted exportRaises : Bool)
    (seeds : List (Option (List Article))) :
    runSeeds seeds = (seeds.any Option.isNone, (seeds.filterMap id).flatten) ∧
    (dirOk = false →
      mainRun dirOk interrupted exportRaises seeds = (1, SaveResult.noOutput)) ∧
    (dirOk = true → interrupted = true →
      mainRun dirOk interrupted exportRaises seeds = (130, SaveResult.noOutput)) ∧
    (dirOk = true → interrupted = false → exportRaises = true →
      (seeds.filterMap id).flatten ≠ [] →
      mainRun dirOk interrupted exportRaises seeds = (1, SaveResult.noOutput)) ∧
    (dirOk = true → interrupted = false → exportRaises = false →
      (seeds.filterMap id).flatten ≠ [] →
      mainRun dirOk interrupted exportRaises seeds =
        (0, SaveResult.wrote (drop_duplicates ((seeds.filterMap id).flatten) [])
              save_encoding)) ∧
    (dirOk = true → interrupted = false → (seeds.filterMap id).flatten = [] →
      mainRun dirOk interrupted exportRaises seeds =
        ((if seeds.any Option.isNone = true then 1 else 0),
          SaveResult.noOutput)) := by
  refine ⟨runSeeds_eq seeds, fun hd => by simp [mainRun, hd], ?_, ?_, ?_, ?_⟩
  · intro hd hi
    simp [mainRun, hd, hi]
  · intro hd hi hx hne
    simp only [mainRun, hd, hi, hx, runSeeds_eq seeds]
    simp [hne]
  · intro hd hi hx hne
    simp only [mainRun, hd, hi, hx, runSeeds_eq seeds]
    simp [save_data, hne]
  · intro hd hi hemp
    simp only [mainRun, hd, hi, runSeeds_eq seeds]
    simp [save_data, hemp]

/-- Witness for the amended C2 at one failing and one succeeding seed
with a working export: the partial failure exports the collected article
and exits 0. -/
theorem cli_exit_codes_witness :
    mainRun true false false [none, some [{ title := "t", url := "u" }]] =
      (0, SaveResult.wrote [{ title := "t", url := "u" }] "utf-8-sig") :=
  ((cli_exit_codes true false false
      [none, some [{ title := "t", url := "u" }]]).2.2.2.2.1
    rfl rfl rfl (by decide)).trans (by decide)

/-- C10: exporting an empty accumulated list is a no-op at the public
interface: `save_data` returns normally having created no output file
(and, being a total function here, raises nothing). -/
theorem save_data_empty_noop : save_data [] = SaveResult.noOutput := rfl

end WpScraper
